import Mathlib

/-!
# netcoredbg: `manageddebugger.h`

A shallow embedding of the state and the inline member functions declared in
`src/debug/netcoredbg/manageddebugger.h`, followed by theorems about them.

Conventions of the embedding

* `uint32_t`, `uint64_t`, `ULONG32`, `CORDB_ADDRESS`, `mdMethodDef`, `DWORD` are natural numbers;
  the members defined in the header only store, copy and compare them. The statements that
  increment `m_nextVariableReference`, `m_nextBreakpointId` and `times` are in bodies that the
  header does not contain; where such a body is modelled, the counter is the counter of the
  spec's words (it increases by one), and the range of the declared type is not part of the
  model.
* `int` is `Int`.
* `ToRelease<T>` (an owning smart pointer to a COM interface) and raw interface pointers are
  `Option Nat`: `none` is `nullptr`, `some p` is the interface at address `p`.
* A C++ reference member (`Modules &`, `Evaluator &`) is the identity of the object referred to.
* `std::unordered_map<K, V>` is an association list `List (K × V)` read through `List.lookup`;
  the iteration order of the C++ container is unspecified and no theorem depends on it.
* `std::mutex` and `std::condition_variable` members carry no value and are left out.
-/

namespace NetCoreDbg

/-! ## Basic types -/

/-- An owning `ToRelease<T>` or a raw interface pointer: `none` is `nullptr`. -/
abbrev ToRelease := Option Nat

/-- The identity of an object held through a C++ reference member. -/
abbrev Ref := Nat

/-- The enumeration `ValueKind` (header lines 15-20). -/
inductive ValueKind where
  | ValueIsScope
  | ValueIsClass
  | ValueIsVariable
  deriving DecidableEq, Repr

/-- CLR metadata constant `mdMethodDefNil` of `corhdr.h` (the token type `mdtMethodDef` with a
zero row id); the header uses it in the `Breakpoints` constructor. -/
def mdMethodDefNil : Nat := 0x06000000

/-! ## Association lists standing for `std::unordered_map` -/

/-- The keys of a table. -/
def keys {K V : Type} (m : List (K × V)) : List K := m.map Prod.fst

/-- The `std::unordered_map::emplace` operation: the pair is inserted unless the key is already
present, in which case the table is left as it is. -/
def emplace {K V : Type} [DecidableEq K] (k : K) (v : V) (m : List (K × V)) : List (K × V) :=
  if k ∈ keys m then m else (k, v) :: m

/-- The `std::unordered_map::erase(key)` operation. -/
def eraseKey {K V : Type} [DecidableEq K] (k : K) (m : List (K × V)) : List (K × V) :=
  m.filter (fun p => decide (p.1 ≠ k))

/-! ## `Variables` -/

/-- Modelled from the spec: the boundary type `Variable` is declared in `protocol.h`, which is
not part of the embedded header; section 6 of the spec fixes its shape as
`Variable{name, value, type, variablesReference, namedVariables, indexedVariables, evaluateName}`.
The header reads the last four fields in the `VariableReference` constructor. -/
structure Variable where
  name : String
  value : String
  type : String
  variablesReference : Nat
  namedVariables : Int
  indexedVariables : Int
  evaluateName : String
  deriving DecidableEq, Repr

/-- The structure `Variables::VariableReference` (header lines 224-259). -/
structure VariableReference where
  variablesReference : Nat
  namedVariables : Int
  indexedVariables : Int
  evaluateName : String
  valueKind : ValueKind
  value : ToRelease
  frameId : Nat
  deriving DecidableEq, Repr

/-- The constructor
`VariableReference(const Variable &variable, uint64_t frameId, ToRelease<ICorDebugValue> value,
ValueKind valueKind)` (header lines 236-244). -/
def VariableReference.ofVariable (var : Variable) (frameId : Nat) (value : ToRelease)
    (valueKind : ValueKind) : VariableReference :=
  { variablesReference := var.variablesReference
    namedVariables := var.namedVariables
    indexedVariables := var.indexedVariables
    evaluateName := var.evaluateName
    valueKind := valueKind
    value := value
    frameId := frameId }

/-- The scope constructor
`VariableReference(uint32_t variablesReference, uint64_t frameId, int namedVariables)`
(header lines 246-253). `evaluateName` is not in the initialiser list, so it is the
default-constructed (empty) string. -/
def VariableReference.ofScope (variablesReference : Nat) (frameId : Nat) (namedVariables : Int) :
    VariableReference :=
  { variablesReference := variablesReference
    namedVariables := namedVariables
    indexedVariables := 0
    evaluateName := ""
    valueKind := ValueKind.ValueIsScope
    value := none
    frameId := frameId }

/-- The member `bool IsScope() const { return valueKind == ValueIsScope; }` (header line 255). -/
def VariableReference.IsScope (r : VariableReference) : Bool :=
  decide (r.valueKind = ValueKind.ValueIsScope)

/-- The data members of class `Variables` (header lines 261-264). -/
structure Variables where
  m_evaluator : Ref
  m_variables : List (Nat × VariableReference)
  m_nextVariableReference : Nat
  deriving DecidableEq, Repr

/-- The constructor
`Variables(Evaluator &evaluator) : m_evaluator(evaluator), m_nextVariableReference(1) {}`
(header line 305); `m_variables` is default-constructed, hence empty. -/
def Variables.ctor (evaluator : Ref) : Variables :=
  { m_evaluator := evaluator
    m_variables := []
    m_nextVariableReference := 1 }

/-- The member `void Clear() { m_variables.clear(); m_nextVariableReference = 1; }`
(header line 321). -/
def Variables.Clear (s : Variables) : Variables :=
  { s with m_variables := [], m_nextVariableReference := 1 }

/-- Modelled from the spec: the bodies of `Variables::AddVariableReference`,
`Variables::GetScopes` and `Variables::Evaluate` are not in the embedded header (only their
declarations are). Section 4.3 of the spec: "Handle allocation is a simple monotonically
increasing counter starting at 1, reset to 1 on `Clear()`; handle 0 means no children and is
never allocated". The step shared by the three operations issues the current value of
`m_nextVariableReference` as the handle, stores the reference built for that handle under
it, and increases the counter by one. -/
def Variables.allocate (s : Variables) (mkRef : Nat → VariableReference) : Nat × Variables :=
  (s.m_nextVariableReference,
    { s with
      m_variables := emplace s.m_nextVariableReference (mkRef s.m_nextVariableReference)
        s.m_variables
      m_nextVariableReference := s.m_nextVariableReference + 1 })

/-! ## `Breakpoints` -/

/-- The structure `Breakpoints::ManagedBreakpoint` (header lines 160-180). -/
structure ManagedBreakpoint where
  id : Nat
  modAddress : Nat
  methodToken : Nat
  ilOffset : Nat
  fullname : String
  linenum : Int
  breakpoint : ToRelease
  enabled : Bool
  times : Nat
  deriving DecidableEq, Repr

/-- The member `bool IsResolved() const { return modAddress != 0; }` (header line 171). -/
def ManagedBreakpoint.IsResolved (bp : ManagedBreakpoint) : Bool :=
  decide (bp.modAddress ≠ 0)

/-- The data members of class `Breakpoints` (header lines 182-192). -/
structure Breakpoints where
  m_modules : Ref
  m_nextBreakpointId : Nat
  m_breakpoints : List (String × List (Int × ManagedBreakpoint))
  m_stopAtEntry : Bool
  m_entryPoint : Nat
  m_entryBreakpoint : ToRelease
  deriving DecidableEq, Repr

/-- The constructor
`Breakpoints(Modules &modules) : m_modules(modules), m_nextBreakpointId(1),
m_stopAtEntry(false), m_entryPoint(mdMethodDefNil) {}` (header lines 198-199);
`m_breakpoints` and `m_entryBreakpoint` are default-constructed: an empty table and a null
`ToRelease`. -/
def Breakpoints.ctor (modules : Ref) : Breakpoints :=
  { m_modules := modules
    m_nextBreakpointId := 1
    m_breakpoints := []
    m_stopAtEntry := false
    m_entryPoint := mdMethodDefNil
    m_entryBreakpoint := none }

/-! ## `Variables`: the handle-allocating operations -/

/-- Modelled from the spec: the boundary type `Scope` is declared in `protocol.h`, which is not
part of the embedded header; section 6 of the spec fixes its shape as
`Scope{name, variablesReference, namedVariables}`. -/
structure Scope where
  name : String
  variablesReference : Nat
  namedVariables : Int
  deriving DecidableEq, Repr

/-- Modelled from the spec: the body of `Variables::AddVariableReference` is not in the embedded
header. It surfaces a composite value: a handle is allocated, written into the `Variable`
(the header passes it by non-const reference), and the `VariableReference` built from that
`Variable` by the header's constructor is stored under the handle. -/
def Variables.AddVariableReference (s : Variables) (var : Variable) (frameId : Nat)
    (value : ToRelease) (valueKind : ValueKind) : Variable × Variables :=
  ({ var with variablesReference := s.m_nextVariableReference },
    (s.allocate (fun h =>
      VariableReference.ofVariable { var with variablesReference := h } frameId value
        valueKind)).2)

/-- Modelled from the spec: the body of `Variables::GetScopes` is not in the embedded header.
Section 4.3: "`GetScopes(frameId)` always returns a small fixed set of scope pseudo-nodes ...,
each freshly assigned a handle referencing that frame." The scope nodes of the frame (name and
number of named variables, read from the runtime) are the list argument. -/
def Variables.GetScopes (frameId : Nat) : List (String × Int) → Variables → List Scope × Variables
  | [], s => ([], s)
  | (name, named) :: rest, s =>
    let a := s.allocate (fun h => VariableReference.ofScope h frameId named)
    let r := Variables.GetScopes frameId rest a.2
    ({ name := name, variablesReference := a.1, namedVariables := named } :: r.1, r.2)

/-- Modelled from the spec: what the expression resolver of the `Evaluator` (an external
collaborator of `Variables`) hands back for an expression that resolves: the runtime value, its
rendering, and whether it is composite (has children to surface). -/
structure EvalResult where
  value : Nat
  name : String
  text : String
  type : String
  composite : Bool
  namedVariables : Int
  indexedVariables : Int
  valueKind : ValueKind
  deriving DecidableEq, Repr

/-- Modelled from the spec: the body of `Variables::Evaluate` is not in the embedded header.
Section 4.3: "calls the Evaluator's expression resolver, then wraps the resulting value as a
fresh `VariableReference` (allocating a handle if the value is composite) with `evaluateName`
set to the original expression text". `result` is the resolver's outcome (`none`: the
expression did not resolve); a value that is not composite keeps handle 0 ("no children"). -/
def Variables.Evaluate (s : Variables) (frameId : Nat) (expression : String)
    (result : Option EvalResult) : Option Variable × Variables :=
  match result with
  | none => (none, s)
  | some r =>
    let var : Variable :=
      { name := r.name, value := r.text, type := r.type, variablesReference := 0
        namedVariables := r.namedVariables, indexedVariables := r.indexedVariables
        evaluateName := expression }
    if r.composite then
      let a := s.AddVariableReference var frameId (some r.value) r.valueKind
      (some a.1, a.2)
    else (some var, s)

/-- One call on a `Variables` object that can change its handle table. -/
inductive VariablesCall where
  | AddVariableReference (var : Variable) (frameId : Nat) (value : ToRelease)
      (valueKind : ValueKind)
  | GetScopes (frameId : Nat) (scopes : List (String × Int))
  | Evaluate (frameId : Nat) (expression : String) (result : Option EvalResult)
  | Clear
  deriving DecidableEq, Repr

/-- The state after one call. -/
def Variables.step (s : Variables) : VariablesCall → Variables
  | .AddVariableReference var frameId value valueKind =>
    (s.AddVariableReference var frameId value valueKind).2
  | .GetScopes frameId scopes => (Variables.GetScopes frameId scopes s).2
  | .Evaluate frameId expression result => (s.Evaluate frameId expression result).2
  | .Clear => s.Clear

/-- The state after a sequence of calls, first call first. -/
def Variables.run (s : Variables) (calls : List VariablesCall) : Variables :=
  calls.foldl Variables.step s

/-! ## `Breakpoints`: the operations on the table -/

/-- Modelled from the spec: the boundary type `Breakpoint` is declared in `protocol.h`, which is
not part of the embedded header; section 6 of the spec gives the fields
`Breakpoint{id, verified, line, fullname, …}`. -/
structure Breakpoint where
  id : Nat
  verified : Bool
  line : Int
  fullname : String
  deriving DecidableEq, Repr

/-- Modelled from the spec: the boundary type `BreakpointEvent` (`protocol.h`), "emitted on
resolution changes after a module load"; it carries the descriptor of the breakpoint. -/
structure BreakpointEvent where
  breakpoint : Breakpoint
  deriving DecidableEq, Repr

/-- Modelled from the spec: the default constructor `ManagedBreakpoint()` is declared in the
header and defined elsewhere. Section 4.2: `SetBreakpoints` "creates new unresolved entries for
new lines"; section 3: "Unresolved breakpoints carry no native handle", the resolution state
is "set only once resolved", and `times` counts hits. -/
def ManagedBreakpoint.ctor : ManagedBreakpoint :=
  { id := 0, modAddress := 0, methodToken := 0, ilOffset := 0, fullname := "", linenum := 0
    breakpoint := none, enabled := true, times := 0 }

/-- Modelled from the spec: the body of `ManagedBreakpoint::ToBreakpoint` is not in the embedded
header. Section 6: "`verified` mirrors `IsResolved()`". -/
def ManagedBreakpoint.ToBreakpoint (bp : ManagedBreakpoint) : Breakpoint :=
  { id := bp.id, verified := bp.IsResolved, line := bp.linenum, fullname := bp.fullname }

/-- Modelled from the spec: what a successful resolution obtains from the runtime (section 4.2:
"resolution computes a native address/method-token/IL-offset triple and installs a native
breakpoint object"). The native address is the address of a loaded module and is not 0: 0 is
the value `IsResolved` (header line 171) reads as unresolved, and the transition of section 4.2
is Unresolved → Resolved. -/
structure Resolution where
  modAddress : Nat
  methodToken : Nat
  ilOffset : Nat
  breakpoint : Nat
  modAddress_ne_zero : modAddress ≠ 0

/-- Modelled from the spec: a loaded module as the resolver consumes it (`ICorDebugModule` with
its symbols, an external collaborator): for a source location it covers, the resolution; and,
when it holds the entry method, that method's token with the function breakpoint the runtime
creates on it. -/
structure Module where
  locate : String → Int → Option Resolution
  entryPoint : Option (Nat × Nat)

/-- Modelled from the spec: the body of `Breakpoints::ResolveBreakpointInModule` is not in the
embedded header. Section 4.2: a module "whose file/line range covers the breakpoint's source
location" resolves it: the triple is stored and the native breakpoint installed; `fullname` and
`linenum` stay "as requested". `none` is the failing `HRESULT`: the breakpoint is untouched. -/
def Breakpoints.ResolveBreakpointInModule (pModule : Module) (bp : ManagedBreakpoint) :
    Option ManagedBreakpoint :=
  match pModule.locate bp.fullname bp.linenum with
  | none => none
  | some r =>
    some { bp with
      modAddress := r.modAddress
      methodToken := r.methodToken
      ilOffset := r.ilOffset
      breakpoint := some r.breakpoint }

/-- Modelled from the spec: the body of `Breakpoints::ResolveBreakpoint` is not in the embedded
header. Section 4.2: "it attempts resolution immediately against already-loaded modules and
leaves the rest pending". The loaded modules (held by the external `Modules`) are the list
argument; the first module that resolves the breakpoint wins, and a breakpoint that no module
resolves is returned as it was. -/
def Breakpoints.ResolveBreakpoint (loaded : List Module) (bp : ManagedBreakpoint) :
    ManagedBreakpoint :=
  match loaded with
  | [] => bp
  | pModule :: rest =>
    match Breakpoints.ResolveBreakpointInModule pModule bp with
    | some resolved => resolved
    | none => Breakpoints.ResolveBreakpoint rest bp

/-- The breakpoints of one file (`m_breakpoints[filename]`; empty when the file has none). -/
def Breakpoints.fileTable (s : Breakpoints) (filename : String) : List (Int × ManagedBreakpoint) :=
  (s.m_breakpoints.lookup filename).getD []

/-- Modelled from the spec: the second half of `Breakpoints::SetBreakpoints`, whose body is
not in the embedded header. Section 4.2: it "keeps/reuses state for lines still present
(preserving id and hit count), and creates new unresolved entries for new lines; it attempts
resolution immediately against already-loaded modules"; section 3: the `id` is "monotonic",
"assigned at creation, never reused". The requested lines are visited in order; a line that
has a breakpoint keeps it, a line that has none gets a new unresolved breakpoint whose `id` is
the current `m_nextBreakpointId`, which then increases by one, and resolution is attempted at
once. The result is the table of the file, the counter, and the ids given to new breakpoints,
in order. -/
def Breakpoints.addLines (loaded : List Module) (filename : String) :
    List Int → List (Int × ManagedBreakpoint) → Nat → List (Int × ManagedBreakpoint) × Nat × List Nat
  | [], table, next => (table, next, [])
  | line :: rest, table, next =>
    if line ∈ keys table then Breakpoints.addLines loaded filename rest table next
    else
      let bp := Breakpoints.ResolveBreakpoint loaded
        { ManagedBreakpoint.ctor with id := next, fullname := filename, linenum := line }
      let r := Breakpoints.addLines loaded filename rest ((line, bp) :: table) (next + 1)
      (r.1, r.2.1, next :: r.2.2)

/-- What a call of `SetBreakpoints` produces: the descriptors written to the output vector, the
state of the object afterwards, and the ids it gave to new breakpoints. -/
structure SetBreakpointsResult where
  breakpoints : List Breakpoint
  state : Breakpoints
  created : List Nat

/-- Modelled from the spec: the body of `Breakpoints::SetBreakpoints` is not in the embedded
header. Section 4.2: "`SetBreakpoints(filename, lines)` is a replace-for-file operation: it
deletes all previously set breakpoints for that file not present in the new `lines` set,
keeps/reuses state for lines still present (preserving id and hit count), and creates new
unresolved entries for new lines; it attempts resolution immediately against already-loaded
modules and leaves the rest pending." Section 3: the `id` is "assigned at creation" from the
monotonic counter. `loaded` stands for the modules already loaded in `pProcess` (none when
there is no process). One descriptor is written per requested line. -/
def Breakpoints.SetBreakpoints (s : Breakpoints) (loaded : List Module) (filename : String)
    (lines : List Int) : SetBreakpointsResult :=
  let kept := (s.fileTable filename).filter (fun p => decide (p.1 ∈ lines))
  let r := Breakpoints.addLines loaded filename lines kept s.m_nextBreakpointId
  { breakpoints := lines.filterMap (fun line =>
      (r.1.lookup line).map ManagedBreakpoint.ToBreakpoint)
    state := { s with
      m_breakpoints := (filename, r.1) :: eraseKey filename s.m_breakpoints
      m_nextBreakpointId := r.2.1 }
    created := r.2.2 }

/-- Applies `f` to every breakpoint of the table. -/
def mapTable (f : ManagedBreakpoint → ManagedBreakpoint)
    (m : List (String × List (Int × ManagedBreakpoint))) :
    List (String × List (Int × ManagedBreakpoint)) :=
  m.map (fun ft => (ft.1, ft.2.map (fun lb => (lb.1, f lb.2))))

/-- All breakpoints of the table. -/
def allBreakpoints (m : List (String × List (Int × ManagedBreakpoint))) : List ManagedBreakpoint :=
  (m.map (fun ft => ft.2.map Prod.snd)).flatten

/-- Modelled from the spec: the attempt that `TryResolveBreakpointsForModule` (body not in the
embedded header) makes on one breakpoint. Section 4.2: it attempts "resolution of all
still-unresolved breakpoints", and the transition Unresolved → Resolved is one-way: a resolved
breakpoint is left alone, an unresolved one is resolved if the module covers it. -/
def Breakpoints.tryResolveOne (pModule : Module) (bp : ManagedBreakpoint) : ManagedBreakpoint :=
  if bp.IsResolved then bp else (Breakpoints.ResolveBreakpointInModule pModule bp).getD bp

/-- Modelled from the spec: the body of `Breakpoints::TrySetupEntryBreakpoint` is not in the
embedded header. Section 3: the entry breakpoint is "armed only if stop at entry was requested;
resolved when the module containing the entry point loads"; there is "at most one live
instance", so a second entry point is not looked for once one was found. -/
def Breakpoints.TrySetupEntryBreakpoint (s : Breakpoints) (pModule : Module) : Breakpoints :=
  if s.m_stopAtEntry = true ∧ s.m_entryPoint = mdMethodDefNil then
    match pModule.entryPoint with
    | some e => { s with m_entryPoint := e.1, m_entryBreakpoint := some e.2 }
    | none => s
  else s

/-- Modelled from the spec: the body of `Breakpoints::TryResolveBreakpointsForModule` is not in
the embedded header. Section 4.2: it "must attempt resolution of all still-unresolved breakpoints
(and the entry breakpoint) ..., emitting one breakpoint resolved/changed event per newly
resolved breakpoint". -/
def Breakpoints.TryResolveBreakpointsForModule (s : Breakpoints) (pModule : Module) :
    List BreakpointEvent × Breakpoints :=
  (((allBreakpoints s.m_breakpoints).filter (fun bp =>
      !bp.IsResolved && (Breakpoints.tryResolveOne pModule bp).IsResolved)).map
      (fun bp => { breakpoint := (Breakpoints.tryResolveOne pModule bp).ToBreakpoint }),
    { Breakpoints.TrySetupEntryBreakpoint s pModule with
      m_breakpoints := mapTable (Breakpoints.tryResolveOne pModule) s.m_breakpoints })

/-- Modelled from the spec: the body of `Breakpoints::HitEntry` is not in the embedded header.
Section 4.2: "`HitEntry` distinguishes an entry-point hit from ordinary breakpoint hits". -/
def Breakpoints.HitEntry (s : Breakpoints) (pBreakpoint : Nat) : Bool :=
  s.m_stopAtEntry && decide (s.m_entryBreakpoint = some pBreakpoint)

/-- Modelled from the spec: the effect that `HitBreakpoint` (body not in the embedded header)
has on one breakpoint when the native breakpoint `pBreakpoint` fires. Section 4.2: "locate the
matching `ManagedBreakpoint`, increment its `times` counter". -/
def Breakpoints.hitOne (pBreakpoint : Nat) (bp : ManagedBreakpoint) : ManagedBreakpoint :=
  if bp.breakpoint = some pBreakpoint then { bp with times := bp.times + 1 } else bp

/-- What a call of `HitBreakpoint` produces: the descriptor when the hit is reported (`none`
when nothing matches or the hit is suppressed), the `atEntry` flag, and the state. -/
structure HitBreakpointResult where
  breakpoint : Option Breakpoint
  atEntry : Bool
  state : Breakpoints

/-- Modelled from the spec: the body of `Breakpoints::HitBreakpoint` is not in the embedded
header. Section 4.2: an entry-point hit is reported once, "then the entry breakpoint is
removed"; otherwise "locate the matching `ManagedBreakpoint`, increment its `times` counter,
and populate an outward `Breakpoint` descriptor; if `enabled == false`, the hit must be
suppressed". -/
def Breakpoints.HitBreakpoint (s : Breakpoints) (pBreakpoint : Nat) : HitBreakpointResult :=
  if s.HitEntry pBreakpoint then
    { breakpoint := none, atEntry := true, state := { s with m_entryBreakpoint := none } }
  else
    { breakpoint :=
        (((allBreakpoints s.m_breakpoints).find? (fun bp =>
          decide (bp.breakpoint = some pBreakpoint))).bind (fun bp =>
            if bp.enabled then some (Breakpoints.hitOne pBreakpoint bp).ToBreakpoint else none))
      atEntry := false
      state := { s with m_breakpoints := mapTable (Breakpoints.hitOne pBreakpoint) s.m_breakpoints } }

/-- Modelled from the spec: the body of `Breakpoints::DeleteAllBreakpoints` is not in the embedded
header; section 3 calls it the "global clear" that destroys the breakpoints. -/
def Breakpoints.DeleteAllBreakpoints (s : Breakpoints) : Breakpoints :=
  { s with m_breakpoints := [] }

/-- Modelled from the spec: the body of `Breakpoints::SetStopAtEntry` is not in the embedded
header; it records whether "stop at entry" was requested. -/
def Breakpoints.SetStopAtEntry (s : Breakpoints) (stopAtEntry : Bool) : Breakpoints :=
  { s with m_stopAtEntry := stopAtEntry }

/-- One call on a `Breakpoints` object. -/
inductive BreakpointsCall where
  | SetBreakpoints (loaded : List Module) (filename : String) (lines : List Int)
  | TryResolveBreakpointsForModule (pModule : Module)
  | HitBreakpoint (pBreakpoint : Nat)
  | DeleteAllBreakpoints
  | SetStopAtEntry (stopAtEntry : Bool)

/-- The state after one call. -/
def Breakpoints.step (s : Breakpoints) : BreakpointsCall → Breakpoints
  | .SetBreakpoints loaded filename lines => (s.SetBreakpoints loaded filename lines).state
  | .TryResolveBreakpointsForModule pModule => (s.TryResolveBreakpointsForModule pModule).2
  | .HitBreakpoint pBreakpoint => (s.HitBreakpoint pBreakpoint).state
  | .DeleteAllBreakpoints => s.DeleteAllBreakpoints
  | .SetStopAtEntry stopAtEntry => s.SetStopAtEntry stopAtEntry

/-- The state after a sequence of calls, first call first. -/
def Breakpoints.run (s : Breakpoints) (calls : List BreakpointsCall) : Breakpoints :=
  calls.foldl Breakpoints.step s

/-- The arguments of one `SetBreakpoints` call. -/
structure SetBreakpointsCall where
  loaded : List Module
  filename : String
  lines : List Int

/-- A sequence of `SetBreakpoints` calls, first call first: the state it ends in and the ids
given to new breakpoints along the way, in order. -/
def Breakpoints.runSetBreakpoints : List SetBreakpointsCall → Breakpoints → Breakpoints × List Nat
  | [], s => (s, [])
  | c :: rest, s =>
    let r := s.SetBreakpoints c.loaded c.filename c.lines
    let q := Breakpoints.runSetBreakpoints rest r.state
    (q.1, r.created ++ q.2)

/-- Whether the call is `SetStopAtEntry(true)`, the request to stop at entry. -/
def BreakpointsCall.requestsStopAtEntry : BreakpointsCall → Bool
  | .SetStopAtEntry stopAtEntry => stopAtEntry
  | _ => false

/-- A loaded module that covers line 5 of `a.cs` and holds the entry method. -/
def sampleModule : Module :=
  { locate := fun filename line =>
      if filename = "a.cs" ∧ line = 5 then some ⟨4096, 7, 3, 900, by decide⟩ else none
    entryPoint := some (100663297, 901) }

/-- A short session: two breakpoints are requested in `a.cs` with no module loaded, the module
is loaded, and the native breakpoint installed for line 5 fires. -/
def sampleCalls : List BreakpointsCall :=
  [BreakpointsCall.SetBreakpoints [] "a.cs" [5, 7],
    BreakpointsCall.TryResolveBreakpointsForModule sampleModule,
    BreakpointsCall.HitBreakpoint 900]

/-- The breakpoint of line 5 at the end of `sampleCalls`. -/
def sampleResolved : ManagedBreakpoint :=
  { id := 1, modAddress := 4096, methodToken := 7, ilOffset := 3, fullname := "a.cs"
    linenum := 5, breakpoint := some 900, enabled := true, times := 1 }

/-- The breakpoint of line 7 at the end of `sampleCalls`. -/
def sampleUnresolved : ManagedBreakpoint :=
  { id := 2, modAddress := 0, methodToken := 0, ilOffset := 0, fullname := "a.cs"
    linenum := 7, breakpoint := none, enabled := true, times := 0 }

/-- The state in which `sampleCalls` leaves a newly constructed `Breakpoints` object. -/
def sampleState : Breakpoints :=
  (Breakpoints.ctor 0).run sampleCalls

/-! ## `ManagedDebugger` -/

/-- The enumeration `ManagedDebugger::ProcessAttachedState` (header lines 330-334). -/
inductive ProcessAttachedState where
  | ProcessAttached
  | ProcessUnattached
  deriving DecidableEq, Repr

/-- The enumeration `ManagedDebugger::StartMethod` (header lines 349-355). -/
inductive StartMethod where
  | StartNone
  | StartLaunch
  | StartAttach
  deriving DecidableEq, Repr

/-- The data members of class `Evaluator` (header lines 29-36); of the table of pending
evaluations only the thread ids are kept, a `std::promise` has no value to read. -/
structure Evaluator where
  m_modules : Ref
  m_pRunClassConstructor : ToRelease
  m_pGetTypeHandle : ToRelease
  m_evalResults : List Nat
  deriving DecidableEq, Repr

/-- Class `Modules` is declared in `modules.h`, which is not part of the embedded header; its
state is carried as one value that no member embedded here reads or writes. -/
structure Modules where
  state : Nat
  deriving DecidableEq, Repr

/-- The data members of class `ManagedDebugger` (header lines 335-378), in declaration
order. -/
structure ManagedDebugger where
  m_processAttachedState : ProcessAttachedState
  m_lastStoppedThreadId : Int
  m_startMethod : StartMethod
  m_execPath : String
  m_execArgs : List String
  m_stopAtEntry : Bool
  m_modules : Modules
  m_evaluator : Evaluator
  m_breakpoints : Breakpoints
  m_variables : Variables
  m_protocol : Option Nat
  m_managedCallback : ToRelease
  m_pDebug : Option Nat
  m_pProcess : Option Nat
  m_justMyCode : Bool
  m_startupReady : Bool
  m_startupResult : Int
  m_unregisterToken : Option Nat
  m_processId : Nat
  m_clrPath : String
  deriving DecidableEq, Repr

/-- The member `void SetProtocol(Protocol *protocol) { m_protocol = protocol; }`
(header line 401). -/
def ManagedDebugger.SetProtocol (d : ManagedDebugger) (protocol : Option Nat) : ManagedDebugger :=
  { d with m_protocol := protocol }

/-- The member `bool IsJustMyCode() const override { return m_justMyCode; }` (header line 403),
in state-passing form: the value returned and the state after the call. -/
def ManagedDebugger.IsJustMyCode (d : ManagedDebugger) : Bool × ManagedDebugger :=
  (d.m_justMyCode, d)

/-- The member `void SetJustMyCode(bool enable) override { m_justMyCode = enable; }`
(header line 404). -/
def ManagedDebugger.SetJustMyCode (d : ManagedDebugger) (enable : Bool) : ManagedDebugger :=
  { d with m_justMyCode := enable }

/-! ## Predicates used in the statements and proofs -/

/-- Every breakpoint of the table satisfies `P`. -/
def TableAll (P : ManagedBreakpoint → Prop)
    (m : List (String × List (Int × ManagedBreakpoint))) : Prop :=
  ∀ ft ∈ m, ∀ lb ∈ ft.2, P lb.2

/-- The invariant of section 3 on one breakpoint: it is resolved exactly when it holds a native
breakpoint handle. -/
def HandleIffResolved (bp : ManagedBreakpoint) : Prop :=
  bp.IsResolved = true ↔ bp.breakpoint ≠ none

/-- The ids that `count` successive increments issue from a counter that stands at `next`. -/
def idsFrom (next count : Nat) : List Nat :=
  (List.range count).map (fun k => next + k)

/-- The entry breakpoint is not armed: stop at entry is not requested, no entry method has been
recorded, and there is no entry breakpoint handle. -/
def EntryNotArmed (s : Breakpoints) : Prop :=
  s.m_stopAtEntry = false ∧ s.m_entryPoint = mdMethodDefNil ∧ s.m_entryBreakpoint = none

/-- Every breakpoint of the table has an id below `bound`. -/
def IdsBelow (bound : Nat) (m : List (String × List (Int × ManagedBreakpoint))) : Prop :=
  TableAll (fun bp => bp.id < bound) m

/-! ## Theorems: members defined in the header -/

/-- C1: for every `Variables` state, whatever its table and counter, `Clear()` leaves an empty
handle table and the allocation counter at 1, and the handle that the next allocation issues
is 1 (for the allocation step and for `AddVariableReference`). -/
theorem Variables.Clear_empties_table_and_resets_counter (s : Variables) :
    s.Clear.m_variables = [] ∧ s.Clear.m_nextVariableReference = 1 ∧
      (∀ mkRef, (s.Clear.allocate mkRef).1 = 1) ∧
      (∀ var frameId value valueKind,
        (s.Clear.AddVariableReference var frameId value valueKind).1.variablesReference = 1) :=
  ⟨rfl, rfl, fun _ => rfl, fun _ _ _ _ => rfl⟩

/-- C3: `IsResolved()` is true exactly when `modAddress` is not 0, and replacing every other
field of the breakpoint (id, methodToken, ilOffset, fullname, linenum, breakpoint handle,
enabled, times) by arbitrary values does not change its answer. -/
theorem ManagedBreakpoint.IsResolved_iff_modAddress_ne_zero (bp : ManagedBreakpoint) :
    (bp.IsResolved = true ↔ bp.modAddress ≠ 0) ∧
      ∀ (id methodToken ilOffset : Nat) (fullname : String) (linenum : Int)
        (breakpoint : ToRelease) (enabled : Bool) (times : Nat),
        ManagedBreakpoint.IsResolved
          { id := id, modAddress := bp.modAddress, methodToken := methodToken
            ilOffset := ilOffset, fullname := fullname, linenum := linenum
            breakpoint := breakpoint, enabled := enabled, times := times } = bp.IsResolved := by
  refine ⟨?_, ?_⟩
  · simp [ManagedBreakpoint.IsResolved]
  · intros
    rfl

/-- C6: the scope constructor `VariableReference(r, f, n)` stores handle `r`, frame `f` and
`n` named variables, sets `indexedVariables` to 0, leaves `evaluateName` empty, sets the kind
to `ValueIsScope`, owns no runtime value, and `IsScope()` answers true on the result. -/
theorem VariableReference.ofScope_fields (r f : Nat) (n : Int) :
    (VariableReference.ofScope r f n).variablesReference = r ∧
      (VariableReference.ofScope r f n).frameId = f ∧
      (VariableReference.ofScope r f n).namedVariables = n ∧
      (VariableReference.ofScope r f n).indexedVariables = 0 ∧
      (VariableReference.ofScope r f n).evaluateName = "" ∧
      (VariableReference.ofScope r f n).valueKind = ValueKind.ValueIsScope ∧
      (VariableReference.ofScope r f n).value = none ∧
      (VariableReference.ofScope r f n).IsScope = true :=
  ⟨rfl, rfl, rfl, rfl, rfl, rfl, rfl, rfl⟩

/-- C7: the constructor `VariableReference(v, f, h, k)` copies `variablesReference`,
`namedVariables`, `indexedVariables` and `evaluateName` from `v`, stores frame `f`, value `h`
and kind `k`; `IsScope()` on the result is true exactly when `k` is `ValueIsScope`, so it is
false for `ValueIsClass` and for `ValueIsVariable`. -/
theorem VariableReference.ofVariable_fields (v : Variable) (f : Nat) (h : ToRelease)
    (k : ValueKind) :
    (VariableReference.ofVariable v f h k).variablesReference = v.variablesReference ∧
      (VariableReference.ofVariable v f h k).namedVariables = v.namedVariables ∧
      (VariableReference.ofVariable v f h k).indexedVariables = v.indexedVariables ∧
      (VariableReference.ofVariable v f h k).evaluateName = v.evaluateName ∧
      (VariableReference.ofVariable v f h k).frameId = f ∧
      (VariableReference.ofVariable v f h k).value = h ∧
      (VariableReference.ofVariable v f h k).valueKind = k ∧
      ((VariableReference.ofVariable v f h k).IsScope = true ↔ k = ValueKind.ValueIsScope) ∧
      (VariableReference.ofVariable v f h ValueKind.ValueIsClass).IsScope = false ∧
      (VariableReference.ofVariable v f h ValueKind.ValueIsVariable).IsScope = false := by
  refine ⟨rfl, rfl, rfl, rfl, rfl, rfl, rfl, ?_, rfl, rfl⟩
  simp [VariableReference.IsScope, VariableReference.ofVariable]

theorem EntryNotArmed_step (s : Breakpoints) (c : BreakpointsCall) (hs : EntryNotArmed s)
    (hc : c.requestsStopAtEntry = false) : EntryNotArmed (s.step c) := by
  obtain ⟨h1, h2, h3⟩ := hs
  cases c with
  | SetBreakpoints loaded filename lines => exact ⟨h1, h2, h3⟩
  | TryResolveBreakpointsForModule pModule =>
    have hsetup : Breakpoints.TrySetupEntryBreakpoint s pModule = s := by
      simp [Breakpoints.TrySetupEntryBreakpoint, h1]
    show EntryNotArmed { Breakpoints.TrySetupEntryBreakpoint s pModule with
      m_breakpoints := mapTable (Breakpoints.tryResolveOne pModule) s.m_breakpoints }
    rw [hsetup]
    exact ⟨h1, h2, h3⟩
  | HitBreakpoint pBreakpoint =>
    have hentry : s.HitEntry pBreakpoint = false := by
      simp [Breakpoints.HitEntry, h1]
    show EntryNotArmed (s.HitBreakpoint pBreakpoint).state
    unfold Breakpoints.HitBreakpoint
    rw [hentry]
    exact ⟨h1, h2, h3⟩
  | DeleteAllBreakpoints => exact ⟨h1, h2, h3⟩
  | SetStopAtEntry stopAtEntry =>
    have hfalse : stopAtEntry = false := hc
    subst hfalse
    exact ⟨rfl, h2, h3⟩

theorem EntryNotArmed_run (calls : List BreakpointsCall) :
    ∀ (s : Breakpoints), EntryNotArmed s → (∀ c ∈ calls, c.requestsStopAtEntry = false) →
      EntryNotArmed (s.run calls) := by
  induction calls with
  | nil => intro s hs _; exact hs
  | cons c rest ih =>
    intro s hs hc
    exact ih (s.step c) (EntryNotArmed_step s c hs (hc c (List.mem_cons_self _ _)))
      (fun c' hc' => hc c' (List.mem_cons_of_mem _ hc'))

/-- C8: a newly constructed `Breakpoints` object has an empty table of user breakpoints, next
breakpoint id 1, and an entry breakpoint that is not armed: `m_stopAtEntry` is false,
`m_entryPoint` is `mdMethodDefNil` and there is no entry breakpoint handle. Without a prior
`SetStopAtEntry(true)` the entry breakpoint is never armed: after any sequence of
`SetBreakpoints`, `TryResolveBreakpointsForModule`, `HitBreakpoint`, `DeleteAllBreakpoints` and
`SetStopAtEntry(false)` calls these three members still have their initial values, and no
native breakpoint is taken for the entry breakpoint. -/
theorem Breakpoints.ctor_initial_state_entry_never_armed (modules : Ref) :
    (Breakpoints.ctor modules).m_breakpoints = [] ∧
      (Breakpoints.ctor modules).m_nextBreakpointId = 1 ∧
      (Breakpoints.ctor modules).m_stopAtEntry = false ∧
      (Breakpoints.ctor modules).m_entryPoint = mdMethodDefNil ∧
      (Breakpoints.ctor modules).m_entryBreakpoint = none ∧
      (Breakpoints.ctor modules).m_modules = modules ∧
      ∀ calls : List BreakpointsCall, (∀ c ∈ calls, c.requestsStopAtEntry = false) →
        ((Breakpoints.ctor modules).run calls).m_stopAtEntry = false ∧
          ((Breakpoints.ctor modules).run calls).m_entryPoint = mdMethodDefNil ∧
          ((Breakpoints.ctor modules).run calls).m_entryBreakpoint = none ∧
          ∀ pBreakpoint, ((Breakpoints.ctor modules).run calls).HitEntry pBreakpoint = false := by
  refine ⟨rfl, rfl, rfl, rfl, rfl, rfl, ?_⟩
  intro calls hcalls
  obtain ⟨h1, h2, h3⟩ := EntryNotArmed_run calls (Breakpoints.ctor modules) ⟨rfl, rfl, rfl⟩ hcalls
  refine ⟨h1, h2, h3, ?_⟩
  intro pBreakpoint
  simp [Breakpoints.HitEntry, h1]

/-- C8 at a concrete run: two breakpoints are set, the module that holds the entry method is
loaded, and a native breakpoint fires, with no request to stop at entry; the entry breakpoint
is not armed afterwards. -/
theorem Breakpoints.entry_never_armed_witness :
    (∀ c ∈ sampleCalls, c.requestsStopAtEntry = false) ∧
      ((Breakpoints.ctor 0).run sampleCalls).m_stopAtEntry = false ∧
      ((Breakpoints.ctor 0).run sampleCalls).m_entryPoint = mdMethodDefNil ∧
      ((Breakpoints.ctor 0).run sampleCalls).m_entryBreakpoint = none :=
  ⟨by simp [sampleCalls, BreakpointsCall.requestsStopAtEntry],
    ((Breakpoints.ctor_initial_state_entry_never_armed 0).2.2.2.2.2.2 sampleCalls
      (by simp [sampleCalls, BreakpointsCall.requestsStopAtEntry])).1,
    ((Breakpoints.ctor_initial_state_entry_never_armed 0).2.2.2.2.2.2 sampleCalls
      (by simp [sampleCalls, BreakpointsCall.requestsStopAtEntry])).2.1,
    ((Breakpoints.ctor_initial_state_entry_never_armed 0).2.2.2.2.2.2 sampleCalls
      (by simp [sampleCalls, BreakpointsCall.requestsStopAtEntry])).2.2.1⟩

/-- C9: `Clear()` is idempotent; the state it leaves has the table (empty) and the counter (1)
of a `Variables` newly constructed on the same `Evaluator`, indeed it is that state; and the
`m_evaluator` binding is the one before the call. -/
theorem Variables.Clear_idempotent_and_initial (s : Variables) :
    s.Clear.Clear = s.Clear ∧
      s.Clear.m_variables = (Variables.ctor s.m_evaluator).m_variables ∧
      s.Clear.m_nextVariableReference = (Variables.ctor s.m_evaluator).m_nextVariableReference ∧
      s.Clear = Variables.ctor s.m_evaluator ∧
      s.Clear.m_evaluator = s.m_evaluator :=
  ⟨rfl, rfl, rfl, rfl, rfl⟩

/-- C10: after `SetJustMyCode(b)`, `IsJustMyCode()` returns `b`; of two successive
`SetJustMyCode` calls the last wins; `IsJustMyCode()` leaves the state as it was; and
`SetJustMyCode` changes no member other than `m_justMyCode`. -/
theorem ManagedDebugger.SetJustMyCode_IsJustMyCode (d : ManagedDebugger) (b b0 : Bool) :
    (d.SetJustMyCode b).IsJustMyCode.1 = b ∧
      ((d.SetJustMyCode b0).SetJustMyCode b).IsJustMyCode.1 = b ∧
      d.IsJustMyCode.2 = d ∧
      d.IsJustMyCode.1 = d.m_justMyCode ∧
      (d.SetJustMyCode b).m_processAttachedState = d.m_processAttachedState ∧
      (d.SetJustMyCode b).m_lastStoppedThreadId = d.m_lastStoppedThreadId ∧
      (d.SetJustMyCode b).m_startMethod = d.m_startMethod ∧
      (d.SetJustMyCode b).m_execPath = d.m_execPath ∧
      (d.SetJustMyCode b).m_execArgs = d.m_execArgs ∧
      (d.SetJustMyCode b).m_stopAtEntry = d.m_stopAtEntry ∧
      (d.SetJustMyCode b).m_modules = d.m_modules ∧
      (d.SetJustMyCode b).m_evaluator = d.m_evaluator ∧
      (d.SetJustMyCode b).m_breakpoints = d.m_breakpoints ∧
      (d.SetJustMyCode b).m_variables = d.m_variables ∧
      (d.SetJustMyCode b).m_protocol = d.m_protocol ∧
      (d.SetJustMyCode b).m_managedCallback = d.m_managedCallback ∧
      (d.SetJustMyCode b).m_pDebug = d.m_pDebug ∧
      (d.SetJustMyCode b).m_pProcess = d.m_pProcess ∧
      (d.SetJustMyCode b).m_startupReady = d.m_startupReady ∧
      (d.SetJustMyCode b).m_startupResult = d.m_startupResult ∧
      (d.SetJustMyCode b).m_unregisterToken = d.m_unregisterToken ∧
      (d.SetJustMyCode b).m_processId = d.m_processId ∧
      (d.SetJustMyCode b).m_clrPath = d.m_clrPath :=
  ⟨rfl, rfl, rfl, rfl, rfl, rfl, rfl, rfl, rfl, rfl, rfl, rfl, rfl, rfl, rfl, rfl, rfl, rfl, rfl,
    rfl, rfl, rfl, rfl⟩

/-! ## Lemmas on tables -/

theorem lookup_eq_some_mem {K V : Type} [BEq K] [LawfulBEq K] (k : K) (v : V) :
    ∀ (m : List (K × V)), m.lookup k = some v → (k, v) ∈ m := by
  intro m
  induction m with
  | nil => intro h; simp at h
  | cons p rest ih =>
    intro h
    obtain ⟨k', v'⟩ := p
    by_cases hk : k = k'
    · subst hk
      simp [List.lookup] at h
      simp [h]
    · have hb : (k == k') = false := by simpa using hk
      simp [List.lookup, hb] at h
      exact List.mem_cons_of_mem _ (ih h)

theorem TableAll_mapTable (P : ManagedBreakpoint → Prop) (g : ManagedBreakpoint → ManagedBreakpoint)
    (m : List (String × List (Int × ManagedBreakpoint))) (hm : TableAll P m)
    (hg : ∀ bp, P bp → P (g bp)) : TableAll P (mapTable g m) := by
  intro ft hft lb hlb
  simp only [mapTable, List.mem_map] at hft
  obtain ⟨ft0, hft0, rfl⟩ := hft
  simp only [List.mem_map] at hlb
  obtain ⟨lb0, hlb0, rfl⟩ := hlb
  exact hg _ (hm ft0 hft0 lb0 hlb0)

theorem TableAll_fileTable (P : ManagedBreakpoint → Prop) (s : Breakpoints) (filename : String)
    (hs : TableAll P s.m_breakpoints) : ∀ lb ∈ s.fileTable filename, P lb.2 := by
  intro lb hlb
  unfold Breakpoints.fileTable at hlb
  cases hl : s.m_breakpoints.lookup filename with
  | none => simp [hl] at hlb
  | some t =>
    rw [hl] at hlb
    exact hs (filename, t) (lookup_eq_some_mem filename t _ hl) lb hlb

theorem HandleIffResolved_ResolveBreakpointInModule (pModule : Module)
    (bp resolved : ManagedBreakpoint)
    (h : Breakpoints.ResolveBreakpointInModule pModule bp = some resolved) :
    HandleIffResolved resolved := by
  unfold Breakpoints.ResolveBreakpointInModule at h
  cases hl : pModule.locate bp.fullname bp.linenum with
  | none => simp [hl] at h
  | some r =>
    simp only [hl, Option.some.injEq] at h
    subst h
    have := r.modAddress_ne_zero
    simp [HandleIffResolved, ManagedBreakpoint.IsResolved, this]

theorem HandleIffResolved_ResolveBreakpoint (loaded : List Module) (bp : ManagedBreakpoint)
    (h : HandleIffResolved bp) : HandleIffResolved (Breakpoints.ResolveBreakpoint loaded bp) := by
  induction loaded with
  | nil => simpa [Breakpoints.ResolveBreakpoint] using h
  | cons pModule rest ih =>
    unfold Breakpoints.ResolveBreakpoint
    cases hr : Breakpoints.ResolveBreakpointInModule pModule bp with
    | none => simpa [hr] using ih
    | some resolved =>
      simpa [hr] using HandleIffResolved_ResolveBreakpointInModule pModule bp resolved hr

theorem HandleIffResolved_new (next : Nat) (filename : String) (line : Int) :
    HandleIffResolved
      { ManagedBreakpoint.ctor with id := next, fullname := filename, linenum := line } := by
  simp [HandleIffResolved, ManagedBreakpoint.IsResolved, ManagedBreakpoint.ctor]

theorem addLines_all (P : ManagedBreakpoint → Prop) (loaded : List Module) (filename : String)
    (hnew : ∀ next line, P (Breakpoints.ResolveBreakpoint loaded
      { ManagedBreakpoint.ctor with id := next, fullname := filename, linenum := line })) :
    ∀ (lines : List Int) (table : List (Int × ManagedBreakpoint)) (next : Nat),
      (∀ lb ∈ table, P lb.2) →
        ∀ lb ∈ (Breakpoints.addLines loaded filename lines table next).1, P lb.2 := by
  intro lines
  induction lines with
  | nil =>
    intro table next ht
    simpa [Breakpoints.addLines] using ht
  | cons line rest ih =>
    intro table next ht
    unfold Breakpoints.addLines
    by_cases hmem : line ∈ keys table
    · rw [if_pos hmem]
      exact ih table next ht
    · rw [if_neg hmem]
      apply ih
      intro lb hlb
      rcases List.mem_cons.mp hlb with rfl | hlb
      · exact hnew next line
      · exact ht lb hlb

theorem TableAll_SetBreakpoints (P : ManagedBreakpoint → Prop) (s : Breakpoints)
    (loaded : List Module) (filename : String) (lines : List Int)
    (hnew : ∀ next line, P (Breakpoints.ResolveBreakpoint loaded
      { ManagedBreakpoint.ctor with id := next, fullname := filename, linenum := line }))
    (hs : TableAll P s.m_breakpoints) :
    TableAll P (s.SetBreakpoints loaded filename lines).state.m_breakpoints := by
  intro ft hft lb hlb
  have hft' : ft ∈ (filename, (Breakpoints.addLines loaded filename lines
      ((s.fileTable filename).filter (fun p => decide (p.1 ∈ lines)))
      s.m_nextBreakpointId).1) :: eraseKey filename s.m_breakpoints := hft
  rcases List.mem_cons.mp hft' with rfl | hft'
  · refine addLines_all P loaded filename hnew lines _ _ ?_ lb hlb
    intro lb0 hlb0
    exact TableAll_fileTable P s filename hs lb0 (List.mem_of_mem_filter hlb0)
  · exact hs ft (List.mem_of_mem_filter hft') lb hlb

theorem HandleIffResolved_tryResolveOne (pModule : Module) (bp : ManagedBreakpoint)
    (h : HandleIffResolved bp) : HandleIffResolved (Breakpoints.tryResolveOne pModule bp) := by
  unfold Breakpoints.tryResolveOne
  by_cases hr : bp.IsResolved = true
  · simpa [hr] using h
  · cases hm : Breakpoints.ResolveBreakpointInModule pModule bp with
    | none => simpa [hr, hm] using h
    | some resolved =>
      simpa [hr, hm] using HandleIffResolved_ResolveBreakpointInModule pModule bp resolved hm

theorem HandleIffResolved_hitOne (pBreakpoint : Nat) (bp : ManagedBreakpoint)
    (h : HandleIffResolved bp) : HandleIffResolved (Breakpoints.hitOne pBreakpoint bp) := by
  unfold Breakpoints.hitOne
  by_cases hb : bp.breakpoint = some pBreakpoint
  · rw [if_pos hb]
    exact h
  · rw [if_neg hb]
    exact h

theorem TableAll_HandleIffResolved_step (s : Breakpoints) (c : BreakpointsCall)
    (hs : TableAll HandleIffResolved s.m_breakpoints) :
    TableAll HandleIffResolved (s.step c).m_breakpoints := by
  cases c with
  | SetBreakpoints loaded filename lines =>
    exact TableAll_SetBreakpoints HandleIffResolved s loaded filename lines
      (fun next line => HandleIffResolved_ResolveBreakpoint loaded _
        (HandleIffResolved_new next filename line)) hs
  | TryResolveBreakpointsForModule pModule =>
    exact TableAll_mapTable HandleIffResolved _ _ hs
      (HandleIffResolved_tryResolveOne pModule)
  | HitBreakpoint pBreakpoint =>
    show TableAll HandleIffResolved (s.HitBreakpoint pBreakpoint).state.m_breakpoints
    unfold Breakpoints.HitBreakpoint
    by_cases he : s.HitEntry pBreakpoint = true
    · rw [if_pos he]
      exact hs
    · rw [if_neg he]
      exact TableAll_mapTable HandleIffResolved _ _ hs (HandleIffResolved_hitOne pBreakpoint)
  | DeleteAllBreakpoints =>
    intro ft hft
    simp [Breakpoints.step, Breakpoints.DeleteAllBreakpoints] at hft
  | SetStopAtEntry stopAtEntry => exact hs

theorem TableAll_HandleIffResolved_run (calls : List BreakpointsCall) :
    ∀ (s : Breakpoints), TableAll HandleIffResolved s.m_breakpoints →
      TableAll HandleIffResolved (s.run calls).m_breakpoints := by
  induction calls with
  | nil => intro s hs; exact hs
  | cons c rest ih =>
    intro s hs
    exact ih (s.step c) (TableAll_HandleIffResolved_step s c hs)

/-! ## Theorems: the breakpoint table -/

/-- C4: for every breakpoint held in the table of a `Breakpoints` object reached from
construction by `SetBreakpoints`, `TryResolveBreakpointsForModule`, `HitBreakpoint`,
`DeleteAllBreakpoints` and `SetStopAtEntry` calls, `IsResolved()` is true exactly when the
native breakpoint handle is present: an unresolved breakpoint (`modAddress == 0`) has no
handle and a resolved one has one. -/
theorem Breakpoints.resolved_iff_handle_present (modules : Ref) (calls : List BreakpointsCall)
    (filename : String) (table : List (Int × ManagedBreakpoint)) (line : Int)
    (bp : ManagedBreakpoint)
    (hfile : (filename, table) ∈ ((Breakpoints.ctor modules).run calls).m_breakpoints)
    (hline : (line, bp) ∈ table) :
    (bp.IsResolved = true ↔ bp.breakpoint ≠ none) ∧
      (bp.modAddress = 0 → bp.breakpoint = none) ∧
      (bp.modAddress ≠ 0 → bp.breakpoint ≠ none) := by
  have hinit : TableAll HandleIffResolved (Breakpoints.ctor modules).m_breakpoints := by
    intro ft hft
    simp [Breakpoints.ctor] at hft
  have h : HandleIffResolved bp :=
    TableAll_HandleIffResolved_run calls _ hinit (filename, table) hfile (line, bp) hline
  have h' : bp.modAddress ≠ 0 ↔ bp.breakpoint ≠ none := by
    simpa [HandleIffResolved, ManagedBreakpoint.IsResolved] using h
  refine ⟨h, ?_, ?_⟩
  · intro h0
    by_contra hne
    exact (h'.mpr hne) h0
  · intro hne
    exact h'.mp hne

/-- C4 at a concrete run: two breakpoints are set in `a.cs` before any module is loaded, a
module covering line 5 is loaded, and the native breakpoint of line 5 is hit; the breakpoint of
line 5 is then resolved and holds its handle. -/
theorem Breakpoints.resolved_iff_handle_present_witness :
    ((("a.cs", [((7 : Int), sampleUnresolved), ((5 : Int), sampleResolved)]) ∈
        ((Breakpoints.ctor 0).run sampleCalls).m_breakpoints) ∧
      (((5 : Int), sampleResolved) ∈
        [((7 : Int), sampleUnresolved), ((5 : Int), sampleResolved)])) ∧
      ((sampleResolved.IsResolved = true ↔ sampleResolved.breakpoint ≠ none) ∧
        (sampleResolved.modAddress = 0 → sampleResolved.breakpoint = none) ∧
        (sampleResolved.modAddress ≠ 0 → sampleResolved.breakpoint ≠ none)) :=
  ⟨⟨by decide, by decide⟩,
    Breakpoints.resolved_iff_handle_present 0 sampleCalls "a.cs"
      [((7 : Int), sampleUnresolved), ((5 : Int), sampleResolved)] 5 sampleResolved
      (by decide) (by decide)⟩

/-! ## Lemmas on `SetBreakpoints` -/

theorem lookup_cons_ne {K V : Type} [BEq K] [LawfulBEq K] (k k' : K) (v : V) (m : List (K × V))
    (h : k ≠ k') : ((k', v) :: m).lookup k = m.lookup k := by
  have hb : (k == k') = false := by simpa using h
  simp [List.lookup, hb]

theorem lookup_cons_self {K V : Type} [BEq K] [LawfulBEq K] (k : K) (v : V) (m : List (K × V)) :
    ((k, v) :: m).lookup k = some v := by
  simp [List.lookup]

theorem lookup_eq_none_iff_not_mem_keys {K V : Type} [BEq K] [LawfulBEq K] (k : K) :
    ∀ (m : List (K × V)), m.lookup k = none ↔ k ∉ keys m := by
  intro m
  induction m with
  | nil => simp [keys]
  | cons p rest ih =>
    obtain ⟨k', v'⟩ := p
    by_cases hk : k = k'
    · subst hk
      simp [lookup_cons_self, keys]
    · rw [lookup_cons_ne k k' v' rest hk, ih]
      simp [keys, hk]

theorem lookup_filter_mem_lines (lines : List Int) (k : Int) :
    ∀ (t : List (Int × ManagedBreakpoint)),
      (t.filter (fun p => decide (p.1 ∈ lines))).lookup k =
        if k ∈ lines then t.lookup k else none := by
  intro t
  induction t with
  | nil => simp
  | cons p rest ih =>
    obtain ⟨k', v'⟩ := p
    by_cases hmem : k' ∈ lines
    · rw [List.filter_cons_of_pos (by simpa using hmem)]
      by_cases hk : k = k'
      · subst hk
        simp [lookup_cons_self, hmem]
      · rw [lookup_cons_ne k k' v' _ hk, lookup_cons_ne k k' v' _ hk, ih]
    · rw [List.filter_cons_of_neg (by simpa using hmem), ih]
      by_cases hk : k = k'
      · subst hk
        simp [hmem]
      · rw [lookup_cons_ne k k' v' _ hk]

theorem ResolveBreakpoint_id_times (loaded : List Module) (bp : ManagedBreakpoint) :
    (Breakpoints.ResolveBreakpoint loaded bp).id = bp.id ∧
      (Breakpoints.ResolveBreakpoint loaded bp).times = bp.times := by
  induction loaded with
  | nil => exact ⟨rfl, rfl⟩
  | cons pModule rest ih =>
    unfold Breakpoints.ResolveBreakpoint
    cases hr : Breakpoints.ResolveBreakpointInModule pModule bp with
    | none => simpa [hr] using ih
    | some resolved =>
      unfold Breakpoints.ResolveBreakpointInModule at hr
      cases hl : pModule.locate bp.fullname bp.linenum with
      | none => simp [hl] at hr
      | some r =>
        simp only [hl, Option.some.injEq] at hr
        subst hr
        exact ⟨rfl, rfl⟩

theorem addLines_lookup_of_mem_keys (loaded : List Module) (filename : String) (k : Int) :
    ∀ (lines : List Int) (table : List (Int × ManagedBreakpoint)) (next : Nat),
      k ∈ keys table →
        (Breakpoints.addLines loaded filename lines table next).1.lookup k = table.lookup k := by
  intro lines
  induction lines with
  | nil => intro table next _; rfl
  | cons line rest ih =>
    intro table next hk
    unfold Breakpoints.addLines
    by_cases hmem : line ∈ keys table
    · rw [if_pos hmem]
      exact ih table next hk
    · rw [if_neg hmem]
      have hne : k ≠ line := fun h => hmem (h ▸ hk)
      show (Breakpoints.addLines loaded filename rest _ _).1.lookup k = _
      rw [ih _ _ (by simp [keys] at hk ⊢; exact Or.inr hk), lookup_cons_ne k line _ table hne]

theorem addLines_lookup_of_not_mem (loaded : List Module) (filename : String) (k : Int) :
    ∀ (lines : List Int) (table : List (Int × ManagedBreakpoint)) (next : Nat),
      k ∉ lines → k ∉ keys table →
        (Breakpoints.addLines loaded filename lines table next).1.lookup k = none := by
  intro lines
  induction lines with
  | nil =>
    intro table next _ hk
    exact (lookup_eq_none_iff_not_mem_keys k table).mpr hk
  | cons line rest ih =>
    intro table next hl hk
    have hne : k ≠ line := fun h => hl (by simp [h])
    have hrest : k ∉ rest := fun h => hl (List.mem_cons_of_mem _ h)
    unfold Breakpoints.addLines
    by_cases hmem : line ∈ keys table
    · rw [if_pos hmem]
      exact ih table next hrest hk
    · rw [if_neg hmem]
      show (Breakpoints.addLines loaded filename rest _ _).1.lookup k = _
      apply ih _ _ hrest
      simp [keys] at hk ⊢
      exact ⟨hne, hk⟩

theorem addLines_lookup_new (loaded : List Module) (filename : String) (k : Int) :
    ∀ (lines : List Int) (table : List (Int × ManagedBreakpoint)) (next : Nat),
      k ∈ lines → k ∉ keys table →
        ∃ bp, (Breakpoints.addLines loaded filename lines table next).1.lookup k = some bp ∧
          bp.id ∈ (Breakpoints.addLines loaded filename lines table next).2.2 := by
  intro lines
  induction lines with
  | nil => intro table next hl; simp at hl
  | cons line rest ih =>
    intro table next hl hk
    unfold Breakpoints.addLines
    by_cases hmem : line ∈ keys table
    · rw [if_pos hmem]
      have hne : k ≠ line := fun h => hk (h ▸ hmem)
      rcases List.mem_cons.mp hl with h | h
      · exact absurd h hne
      · exact ih table next h hk
    · rw [if_neg hmem]
      by_cases hne : k = line
      · subst hne
        refine ⟨Breakpoints.ResolveBreakpoint loaded
          { ManagedBreakpoint.ctor with id := next, fullname := filename, linenum := k }, ?_, ?_⟩
        · show (Breakpoints.addLines loaded filename rest _ _).1.lookup k = _
          rw [addLines_lookup_of_mem_keys loaded filename k rest _ _ (by simp [keys]),
            lookup_cons_self]
        · rw [(ResolveBreakpoint_id_times loaded _).1]
          exact List.mem_cons_self _ _
      · rcases List.mem_cons.mp hl with h | h
        · exact absurd h hne
        · obtain ⟨bp, hbp, hid⟩ := ih ((line, Breakpoints.ResolveBreakpoint loaded
            { ManagedBreakpoint.ctor with id := next, fullname := filename, linenum := line }) ::
              table) (next + 1) h (by simp [keys] at hk ⊢; exact ⟨hne, hk⟩)
          exact ⟨bp, hbp, List.mem_cons_of_mem _ hid⟩

theorem addLines_new_entries (loaded : List Module) (filename : String) :
    ∀ (lines : List Int) (table : List (Int × ManagedBreakpoint)) (next : Nat),
      ∃ entries : List (Int × ManagedBreakpoint),
        (Breakpoints.addLines loaded filename lines table next).1 = entries ++ table ∧
          entries.map (fun lb => lb.2.id) =
            (Breakpoints.addLines loaded filename lines table next).2.2.reverse := by
  intro lines
  induction lines with
  | nil => intro table next; exact ⟨[], rfl, rfl⟩
  | cons line rest ih =>
    intro table next
    unfold Breakpoints.addLines
    by_cases hmem : line ∈ keys table
    · rw [if_pos hmem]
      exact ih table next
    · rw [if_neg hmem]
      obtain ⟨entries, htable, hids⟩ := ih ((line, Breakpoints.ResolveBreakpoint loaded
        { ManagedBreakpoint.ctor with id := next, fullname := filename, linenum := line }) ::
          table) (next + 1)
      refine ⟨entries ++ [(line, Breakpoints.ResolveBreakpoint loaded
        { ManagedBreakpoint.ctor with id := next, fullname := filename, linenum := line })],
        ?_, ?_⟩
      · show (Breakpoints.addLines loaded filename rest _ _).1 = _
        rw [htable]
        simp
      · show _ = (next :: (Breakpoints.addLines loaded filename rest _ _).2.2).reverse
        rw [List.map_append, hids, List.reverse_cons]
        simp [(ResolveBreakpoint_id_times loaded _).1]

theorem idsFrom_succ (next count : Nat) :
    idsFrom next (count + 1) = next :: idsFrom (next + 1) count := by
  unfold idsFrom
  rw [List.range_succ_eq_map, List.map_cons, List.map_map]
  congr 1
  apply List.map_congr_left
  intro k _
  simp only [Function.comp]
  omega

theorem idsFrom_append (next a b : Nat) :
    idsFrom next (a + b) = idsFrom next a ++ idsFrom (next + a) b := by
  unfold idsFrom
  rw [List.range_add, List.map_append, List.map_map]
  congr 1
  apply List.map_congr_left
  intro k _
  simp only [Function.comp]
  omega

theorem mem_idsFrom (next count id : Nat) :
    id ∈ idsFrom next count ↔ next ≤ id ∧ id < next + count := by
  unfold idsFrom
  rw [List.mem_map]
  constructor
  · rintro ⟨k, hk, rfl⟩
    have := List.mem_range.mp hk
    omega
  · rintro ⟨h1, h2⟩
    exact ⟨id - next, List.mem_range.mpr (by omega), by omega⟩

theorem idsFrom_nodup (next count : Nat) : (idsFrom next count).Nodup := by
  unfold idsFrom
  apply List.Nodup.map_on _ (List.nodup_range count)
  intro x _ y _ hxy
  omega

theorem addLines_created (loaded : List Module) (filename : String) :
    ∀ (lines : List Int) (table : List (Int × ManagedBreakpoint)) (next : Nat),
      (Breakpoints.addLines loaded filename lines table next).2.2 =
          idsFrom next (Breakpoints.addLines loaded filename lines table next).2.2.length ∧
        (Breakpoints.addLines loaded filename lines table next).2.1 =
          next + (Breakpoints.addLines loaded filename lines table next).2.2.length := by
  intro lines
  induction lines with
  | nil =>
    intro table next
    exact ⟨rfl, rfl⟩
  | cons line rest ih =>
    intro table next
    unfold Breakpoints.addLines
    by_cases hmem : line ∈ keys table
    · rw [if_pos hmem]
      exact ih table next
    · rw [if_neg hmem]
      obtain ⟨h1, h2⟩ := ih ((line, Breakpoints.ResolveBreakpoint loaded
        { ManagedBreakpoint.ctor with id := next, fullname := filename, linenum := line }) ::
          table) (next + 1)
      refine ⟨?_, ?_⟩
      · show next :: (Breakpoints.addLines loaded filename rest _ _).2.2 =
          idsFrom next ((Breakpoints.addLines loaded filename rest _ _).2.2.length + 1)
        rw [idsFrom_succ, ← h1]
      · show (Breakpoints.addLines loaded filename rest _ _).2.1 =
          next + ((Breakpoints.addLines loaded filename rest _ _).2.2.length + 1)
        rw [h2]
        omega

theorem addLines_ids_below (loaded : List Module) (filename : String) :
    ∀ (lines : List Int) (table : List (Int × ManagedBreakpoint)) (next : Nat),
      (∀ lb ∈ table, lb.2.id < next) →
        ∀ lb ∈ (Breakpoints.addLines loaded filename lines table next).1,
          lb.2.id < (Breakpoints.addLines loaded filename lines table next).2.1 := by
  intro lines
  induction lines with
  | nil =>
    intro table next ht
    exact ht
  | cons line rest ih =>
    intro table next ht
    unfold Breakpoints.addLines
    by_cases hmem : line ∈ keys table
    · rw [if_pos hmem]
      exact ih table next ht
    · rw [if_neg hmem]
      apply ih _ (next + 1)
      intro lb hlb
      rcases List.mem_cons.mp hlb with rfl | hlb
      · show (Breakpoints.ResolveBreakpoint loaded _).id < next + 1
        rw [(ResolveBreakpoint_id_times loaded _).1]
        exact Nat.lt_succ_self next
      · exact Nat.lt_succ_of_lt (ht lb hlb)

theorem SetBreakpoints_created (s : Breakpoints) (loaded : List Module) (filename : String)
    (lines : List Int) :
    (s.SetBreakpoints loaded filename lines).created =
        idsFrom s.m_nextBreakpointId (s.SetBreakpoints loaded filename lines).created.length ∧
      (s.SetBreakpoints loaded filename lines).state.m_nextBreakpointId =
        s.m_nextBreakpointId + (s.SetBreakpoints loaded filename lines).created.length :=
  addLines_created loaded filename lines _ s.m_nextBreakpointId

theorem runSetBreakpoints_issued (calls : List SetBreakpointsCall) :
    ∀ (s : Breakpoints),
      (Breakpoints.runSetBreakpoints calls s).2 =
          idsFrom s.m_nextBreakpointId (Breakpoints.runSetBreakpoints calls s).2.length ∧
        (Breakpoints.runSetBreakpoints calls s).1.m_nextBreakpointId =
          s.m_nextBreakpointId + (Breakpoints.runSetBreakpoints calls s).2.length := by
  induction calls with
  | nil =>
    intro s
    exact ⟨rfl, rfl⟩
  | cons c rest ih =>
    intro s
    obtain ⟨h1, h2⟩ := SetBreakpoints_created s c.loaded c.filename c.lines
    obtain ⟨h3, h4⟩ := ih (s.SetBreakpoints c.loaded c.filename c.lines).state
    refine ⟨?_, ?_⟩
    · show (s.SetBreakpoints c.loaded c.filename c.lines).created ++
        (Breakpoints.runSetBreakpoints rest _).2 = idsFrom _
          ((s.SetBreakpoints c.loaded c.filename c.lines).created ++
            (Breakpoints.runSetBreakpoints rest _).2).length
      rw [List.length_append, idsFrom_append, ← h2, ← h1, ← h3]
    · show (Breakpoints.runSetBreakpoints rest _).1.m_nextBreakpointId =
        _ + ((s.SetBreakpoints c.loaded c.filename c.lines).created ++
            (Breakpoints.runSetBreakpoints rest _).2).length
      rw [h4, h2, List.length_append, Nat.add_assoc]

theorem fileTable_SetBreakpoints (s : Breakpoints) (loaded : List Module) (filename : String)
    (lines : List Int) :
    (s.SetBreakpoints loaded filename lines).state.fileTable filename =
      (Breakpoints.addLines loaded filename lines
        ((s.fileTable filename).filter (fun p => decide (p.1 ∈ lines)))
        s.m_nextBreakpointId).1 := by
  show (List.lookup filename ((filename, _) :: eraseKey filename s.m_breakpoints)).getD [] = _
  rw [lookup_cons_self]
  rfl

theorem lookup_kept (s : Breakpoints) (filename : String) (lines : List Int) (line : Int) :
    ((s.fileTable filename).filter (fun p => decide (p.1 ∈ lines))).lookup line =
      if line ∈ lines then (s.fileTable filename).lookup line else none :=
  lookup_filter_mem_lines lines line _

theorem mem_entries_of_lookup_append (entries table : List (Int × ManagedBreakpoint)) (line : Int)
    (bp : ManagedBreakpoint) (h : (entries ++ table).lookup line = some bp)
    (hk : line ∉ keys table) : (line, bp) ∈ entries := by
  rcases List.mem_append.mp (lookup_eq_some_mem line bp _ h) with h1 | h2
  · exact h1
  · exact absurd (List.mem_map.mpr ⟨(line, bp), h2, rfl⟩) hk

theorem IdsBelow_mono (a b : Nat) (m : List (String × List (Int × ManagedBreakpoint)))
    (hab : a ≤ b) (h : IdsBelow a m) : IdsBelow b m :=
  fun ft hft lb hlb => Nat.lt_of_lt_of_le (h ft hft lb hlb) hab

theorem IdsBelow_SetBreakpoints (s : Breakpoints) (loaded : List Module) (filename : String)
    (lines : List Int) (hs : IdsBelow s.m_nextBreakpointId s.m_breakpoints) :
    IdsBelow (s.SetBreakpoints loaded filename lines).state.m_nextBreakpointId
      (s.SetBreakpoints loaded filename lines).state.m_breakpoints := by
  intro ft hft lb hlb
  have hft' : ft ∈ (filename, (Breakpoints.addLines loaded filename lines
      ((s.fileTable filename).filter (fun p => decide (p.1 ∈ lines)))
      s.m_nextBreakpointId).1) :: eraseKey filename s.m_breakpoints := hft
  rcases List.mem_cons.mp hft' with rfl | hft'
  · refine addLines_ids_below loaded filename lines _ _ ?_ lb hlb
    intro lb0 hlb0
    exact TableAll_fileTable (fun bp => bp.id < s.m_nextBreakpointId) s filename hs lb0
      (List.mem_of_mem_filter hlb0)
  · have h1 := hs ft (List.mem_of_mem_filter hft') lb hlb
    have h2 := (SetBreakpoints_created s loaded filename lines).2
    show lb.2.id < (s.SetBreakpoints loaded filename lines).state.m_nextBreakpointId
    omega

theorem IdsBelow_runSetBreakpoints (calls : List SetBreakpointsCall) :
    ∀ (s : Breakpoints), IdsBelow s.m_nextBreakpointId s.m_breakpoints →
      IdsBelow (Breakpoints.runSetBreakpoints calls s).1.m_nextBreakpointId
        (Breakpoints.runSetBreakpoints calls s).1.m_breakpoints := by
  induction calls with
  | nil => intro s hs; exact hs
  | cons c rest ih =>
    intro s hs
    exact ih _ (IdsBelow_SetBreakpoints s c.loaded c.filename c.lines hs)

theorem tryResolveOne_id (pModule : Module) (bp : ManagedBreakpoint) :
    (Breakpoints.tryResolveOne pModule bp).id = bp.id := by
  unfold Breakpoints.tryResolveOne
  by_cases hr : bp.IsResolved = true
  · simp [hr]
  · cases hm : Breakpoints.ResolveBreakpointInModule pModule bp with
    | none => simp [hr, hm]
    | some resolved =>
      have hid : resolved.id = bp.id := by
        unfold Breakpoints.ResolveBreakpointInModule at hm
        cases hl : pModule.locate bp.fullname bp.linenum with
        | none => simp [hl] at hm
        | some r =>
          simp only [hl, Option.some.injEq] at hm
          subst hm
          rfl
      simpa [hr, hm] using hid

theorem hitOne_id (pBreakpoint : Nat) (bp : ManagedBreakpoint) :
    (Breakpoints.hitOne pBreakpoint bp).id = bp.id := by
  unfold Breakpoints.hitOne
  by_cases hb : bp.breakpoint = some pBreakpoint
  · rw [if_pos hb]
  · rw [if_neg hb]

theorem IdsBelow_step (s : Breakpoints) (c : BreakpointsCall)
    (hs : IdsBelow s.m_nextBreakpointId s.m_breakpoints) :
    IdsBelow (s.step c).m_nextBreakpointId (s.step c).m_breakpoints := by
  cases c with
  | SetBreakpoints loaded filename lines =>
    exact IdsBelow_SetBreakpoints s loaded filename lines hs
  | TryResolveBreakpointsForModule pModule =>
    have hnext : (s.step (BreakpointsCall.TryResolveBreakpointsForModule pModule)).m_nextBreakpointId
        = s.m_nextBreakpointId := by
      show (Breakpoints.TrySetupEntryBreakpoint s pModule).m_nextBreakpointId = _
      unfold Breakpoints.TrySetupEntryBreakpoint
      split
      · split <;> rfl
      · rfl
    rw [hnext]
    exact TableAll_mapTable (fun bp => bp.id < s.m_nextBreakpointId) _ _ hs
      (fun bp hbp => by
        show (Breakpoints.tryResolveOne pModule bp).id < s.m_nextBreakpointId
        rw [tryResolveOne_id]; exact hbp)
  | HitBreakpoint pBreakpoint =>
    show IdsBelow (s.HitBreakpoint pBreakpoint).state.m_nextBreakpointId
      (s.HitBreakpoint pBreakpoint).state.m_breakpoints
    unfold Breakpoints.HitBreakpoint
    by_cases he : s.HitEntry pBreakpoint = true
    · rw [if_pos he]
      exact hs
    · rw [if_neg he]
      exact TableAll_mapTable (fun bp => bp.id < s.m_nextBreakpointId) _ _ hs
        (fun bp hbp => by
          show (Breakpoints.hitOne pBreakpoint bp).id < s.m_nextBreakpointId
          rw [hitOne_id]; exact hbp)
  | DeleteAllBreakpoints =>
    intro ft hft
    simp [Breakpoints.step, Breakpoints.DeleteAllBreakpoints] at hft
  | SetStopAtEntry stopAtEntry => exact hs

theorem IdsBelow_run (calls : List BreakpointsCall) :
    ∀ (s : Breakpoints), IdsBelow s.m_nextBreakpointId s.m_breakpoints →
      IdsBelow (s.run calls).m_nextBreakpointId (s.run calls).m_breakpoints := by
  induction calls with
  | nil => intro s hs; exact hs
  | cons c rest ih =>
    intro s hs
    exact ih (s.step c) (IdsBelow_step s c hs)

/-! ## Theorems: `SetBreakpoints` -/

/-- C5: let a sequence of `SetBreakpoints` calls run on a `Breakpoints` object in any state
(any table, with any hit counters), and let a further call `SetBreakpoints(file, lines)`
follow. Every line of `lines` that had a breakpoint of that file keeps its id and its hit
counter `times`; no breakpoint of that file is left on a line that is not in `lines`; every
line of `lines` that had none gets a breakpoint whose id is created by this call, is at or
above the counter before the call and was issued by no earlier call of the sequence. The ids
issued along the sequence and by this call are pairwise distinct; those issued earlier lie
below the counter; two different new lines get different ids; when the ids of the table the
sequence started from lie below its counter, as they do in every state reached from the
constructor, the new ids differ from the id of every breakpoint held before the call. -/
theorem Breakpoints.SetBreakpoints_replace_for_file (s0 : Breakpoints)
    (calls : List SetBreakpointsCall) (loaded : List Module) (filename : String)
    (lines : List Int) :
    (∀ line bp, line ∈ lines →
        ((Breakpoints.runSetBreakpoints calls s0).1.fileTable filename).lookup line = some bp →
        ∃ kept, (((Breakpoints.runSetBreakpoints calls s0).1.SetBreakpoints loaded filename
            lines).state.fileTable filename).lookup line = some kept ∧
          kept.id = bp.id ∧ kept.times = bp.times) ∧
      (∀ line, line ∉ lines →
        (((Breakpoints.runSetBreakpoints calls s0).1.SetBreakpoints loaded filename
          lines).state.fileTable filename).lookup line = none) ∧
      (∀ line, line ∈ lines →
        ((Breakpoints.runSetBreakpoints calls s0).1.fileTable filename).lookup line = none →
        ∃ new, (((Breakpoints.runSetBreakpoints calls s0).1.SetBreakpoints loaded filename
            lines).state.fileTable filename).lookup line = some new ∧
          new.id ∈ ((Breakpoints.runSetBreakpoints calls s0).1.SetBreakpoints loaded filename
            lines).created ∧
          (Breakpoints.runSetBreakpoints calls s0).1.m_nextBreakpointId ≤ new.id ∧
          new.id ∉ (Breakpoints.runSetBreakpoints calls s0).2) ∧
      ((Breakpoints.runSetBreakpoints calls s0).2 ++
          ((Breakpoints.runSetBreakpoints calls s0).1.SetBreakpoints loaded filename
            lines).created).Nodup ∧
      (∀ id ∈ (Breakpoints.runSetBreakpoints calls s0).2,
        s0.m_nextBreakpointId ≤ id ∧
          id < (Breakpoints.runSetBreakpoints calls s0).1.m_nextBreakpointId) ∧
      (∀ line1 line2 new1 new2, line1 ≠ line2 →
        ((Breakpoints.runSetBreakpoints calls s0).1.fileTable filename).lookup line1 = none →
        ((Breakpoints.runSetBreakpoints calls s0).1.fileTable filename).lookup line2 = none →
        (((Breakpoints.runSetBreakpoints calls s0).1.SetBreakpoints loaded filename
          lines).state.fileTable filename).lookup line1 = some new1 →
        (((Breakpoints.runSetBreakpoints calls s0).1.SetBreakpoints loaded filename
          lines).state.fileTable filename).lookup line2 = some new2 →
        new1.id ≠ new2.id) ∧
      (IdsBelow s0.m_nextBreakpointId s0.m_breakpoints →
        ∀ id ∈ ((Breakpoints.runSetBreakpoints calls s0).1.SetBreakpoints loaded filename
            lines).created,
          ∀ ft ∈ (Breakpoints.runSetBreakpoints calls s0).1.m_breakpoints,
            ∀ lb ∈ ft.2, lb.2.id ≠ id) ∧
      (∀ (modules : Ref) (before : List BreakpointsCall),
        IdsBelow ((Breakpoints.ctor modules).run before).m_nextBreakpointId
          ((Breakpoints.ctor modules).run before).m_breakpoints) := by
  obtain ⟨hH, hnext⟩ := runSetBreakpoints_issued calls s0
  have hbelow := IdsBelow_runSetBreakpoints calls s0
  generalize Breakpoints.runSetBreakpoints calls s0 = sess at hH hnext hbelow ⊢
  obtain ⟨hcr, _⟩ := SetBreakpoints_created sess.1 loaded filename lines
  have hall : sess.2 ++ (sess.1.SetBreakpoints loaded filename lines).created =
      idsFrom s0.m_nextBreakpointId (sess.2.length +
        (sess.1.SetBreakpoints loaded filename lines).created.length) := by
    rw [idsFrom_append, ← hnext, ← hH, ← hcr]
  have hnodup : (sess.2 ++ (sess.1.SetBreakpoints loaded filename lines).created).Nodup := by
    rw [hall]
    exact idsFrom_nodup _ _
  have hcreated : ∀ id ∈ (sess.1.SetBreakpoints loaded filename lines).created,
      sess.1.m_nextBreakpointId ≤ id := by
    intro id hid
    rw [hcr] at hid
    exact ((mem_idsFrom _ _ _).mp hid).1
  have hearlier : ∀ id ∈ sess.2,
      s0.m_nextBreakpointId ≤ id ∧ id < sess.1.m_nextBreakpointId := by
    intro id hid
    rw [hH] at hid
    rw [hnext]
    exact (mem_idsFrom _ _ _).mp hid
  refine ⟨?_, ?_, ?_, hnodup, hearlier, ?_, ?_, ?_⟩
  · intro line bp hline hbp
    refine ⟨bp, ?_, rfl, rfl⟩
    have hk : (((sess.1.fileTable filename).filter (fun p => decide (p.1 ∈ lines))).lookup line) =
        some bp := by
      rw [lookup_kept, if_pos hline, hbp]
    have hmem : line ∈ keys ((sess.1.fileTable filename).filter
        (fun p => decide (p.1 ∈ lines))) := by
      by_contra hnot
      rw [(lookup_eq_none_iff_not_mem_keys line _).mpr hnot] at hk
      exact Option.noConfusion hk
    rw [fileTable_SetBreakpoints, addLines_lookup_of_mem_keys loaded filename line lines _ _ hmem,
      hk]
  · intro line hline
    have hk : (((sess.1.fileTable filename).filter (fun p => decide (p.1 ∈ lines))).lookup line) =
        none := by
      rw [lookup_kept, if_neg hline]
    rw [fileTable_SetBreakpoints]
    exact addLines_lookup_of_not_mem loaded filename line lines _ _ hline
      ((lookup_eq_none_iff_not_mem_keys line _).mp hk)
  · intro line hline hnone
    have hk : (((sess.1.fileTable filename).filter (fun p => decide (p.1 ∈ lines))).lookup line) =
        none := by
      rw [lookup_kept, if_pos hline, hnone]
    rw [fileTable_SetBreakpoints]
    obtain ⟨new, hnew, hid⟩ := addLines_lookup_new loaded filename line lines _
      sess.1.m_nextBreakpointId hline ((lookup_eq_none_iff_not_mem_keys line _).mp hk)
    refine ⟨new, hnew, hid, hcreated _ hid, ?_⟩
    intro hin
    exact (List.nodup_append.mp hnodup).2.2 hin hid
  · intro line1 line2 new1 new2 hne h1 h2 hl1 hl2 hid
    have hk1 : line1 ∉ keys ((sess.1.fileTable filename).filter
        (fun p => decide (p.1 ∈ lines))) := by
      apply (lookup_eq_none_iff_not_mem_keys line1 _).mp
      rw [lookup_kept, h1]
      simp
    have hk2 : line2 ∉ keys ((sess.1.fileTable filename).filter
        (fun p => decide (p.1 ∈ lines))) := by
      apply (lookup_eq_none_iff_not_mem_keys line2 _).mp
      rw [lookup_kept, h2]
      simp
    obtain ⟨entries, htable, hids⟩ := addLines_new_entries loaded filename lines
      ((sess.1.fileTable filename).filter (fun p => decide (p.1 ∈ lines)))
      sess.1.m_nextBreakpointId
    rw [fileTable_SetBreakpoints, htable] at hl1 hl2
    have hm1 := mem_entries_of_lookup_append entries _ line1 new1 hl1 hk1
    have hm2 := mem_entries_of_lookup_append entries _ line2 new2 hl2 hk2
    have hnd : (entries.map (fun lb => lb.2.id)).Nodup := by
      rw [hids]
      exact List.nodup_reverse.mpr (List.nodup_append.mp hnodup).2.1
    have heq := List.inj_on_of_nodup_map hnd hm1 hm2 hid
    exact hne (congrArg Prod.fst heq)
  · intro hs0 id hid ft hft lb hlb heq
    have h1 := hbelow hs0 ft hft lb hlb
    have h2 := hcreated id hid
    have h3 : lb.2.id < sess.1.m_nextBreakpointId := h1
    omega
  · intro modules before
    refine IdsBelow_run before (Breakpoints.ctor modules) ?_
    intro ft hft
    simp [Breakpoints.ctor] at hft

/-- C5 at a concrete session. The table is the one left by `sampleCalls`: line 5 of `a.cs`
has id 1 and was hit once, line 7 has id 2, the counter is 3. `SetBreakpoints(a.cs, {5, 7, 8})`
issues id 3; then `SetBreakpoints(a.cs, {5, 9})` keeps line 5 with id 1 and `times` 1, removes
line 7, and gives line 9 the id 4, which no earlier call issued. -/
theorem Breakpoints.SetBreakpoints_replace_for_file_witness :
    (((Breakpoints.runSetBreakpoints [⟨[], "a.cs", [5, 7, 8]⟩] sampleState).1.fileTable
          "a.cs").lookup 5 = some sampleResolved ∧
        sampleResolved.times = 1 ∧
        (Breakpoints.runSetBreakpoints [⟨[], "a.cs", [5, 7, 8]⟩] sampleState).2 = [3] ∧
        ((Breakpoints.runSetBreakpoints [⟨[], "a.cs", [5, 7, 8]⟩] sampleState).1.SetBreakpoints
          [] "a.cs" [5, 9]).created = [4]) ∧
      (∃ kept, (((Breakpoints.runSetBreakpoints [⟨[], "a.cs", [5, 7, 8]⟩]
            sampleState).1.SetBreakpoints [] "a.cs" [5, 9]).state.fileTable "a.cs").lookup 5 =
          some kept ∧ kept.id = sampleResolved.id ∧ kept.times = sampleResolved.times) ∧
      (((Breakpoints.runSetBreakpoints [⟨[], "a.cs", [5, 7, 8]⟩] sampleState).1.SetBreakpoints
          [] "a.cs" [5, 9]).state.fileTable "a.cs").lookup 7 = none ∧
      (∃ new, (((Breakpoints.runSetBreakpoints [⟨[], "a.cs", [5, 7, 8]⟩]
            sampleState).1.SetBreakpoints [] "a.cs" [5, 9]).state.fileTable "a.cs").lookup 9 =
          some new ∧
        new.id ∈ ((Breakpoints.runSetBreakpoints [⟨[], "a.cs", [5, 7, 8]⟩]
            sampleState).1.SetBreakpoints [] "a.cs" [5, 9]).created ∧
        (Breakpoints.runSetBreakpoints [⟨[], "a.cs", [5, 7, 8]⟩]
            sampleState).1.m_nextBreakpointId ≤ new.id ∧
        new.id ∉ (Breakpoints.runSetBreakpoints [⟨[], "a.cs", [5, 7, 8]⟩] sampleState).2) :=
  ⟨⟨by decide, by decide, by decide, by decide⟩,
    (Breakpoints.SetBreakpoints_replace_for_file sampleState [⟨[], "a.cs", [5, 7, 8]⟩] []
      "a.cs" [5, 9]).1 5 sampleResolved (by decide) (by decide),
    (Breakpoints.SetBreakpoints_replace_for_file sampleState [⟨[], "a.cs", [5, 7, 8]⟩] []
      "a.cs" [5, 9]).2.1 7 (by decide),
    (Breakpoints.SetBreakpoints_replace_for_file sampleState [⟨[], "a.cs", [5, 7, 8]⟩] []
      "a.cs" [5, 9]).2.2.1 9 (by decide) (by decide)⟩

end NetCoreDbg
